import Mathlib

/-!
Shallow embedding of `src/bullet/src/EntityManagementFeatures.cc` from the
gz-physics bullet plugin: the Entity Store bookkeeping maps, the native-world
attachment state, and the model-removal cascade (`RemoveModel`,
`RemoveModelByIndex`, `RemoveModelByName`, `ModelRemoved`).

The bookkeeping maps (`std::unordered_map<std::size_t, ...>`) are embedded as
association lists whose list order stands for the map's iteration order.
A native rigid body is identified by the id of the link record that holds it,
and a native constraint by the id of its joint record; a native world's state
is the list of attached ids.  Undefined or throwing behaviour of the C++
(dereferencing the null `shared_ptr` that `links[...]` inserts for an absent
key, `worlds.at` throwing) is embedded as `Option.none`; a defined outcome is
`some (returnValue, finalState, eventTrace)`.
-/

structure WorldInfo where
  name : String
  bodies : List Nat
  constraints : List Nat
deriving DecidableEq, Repr

structure ModelInfo where
  name : String
  world : Nat
deriving DecidableEq, Repr

structure LinkInfo where
  model : Nat
deriving DecidableEq, Repr

structure CollisionInfo where
  model : Nat
deriving DecidableEq, Repr

structure JointInfo where
  childLinkId : Nat
deriving DecidableEq, Repr

/-- The Entity Store: the five id-keyed bookkeeping maps plus the
child-to-parent auxiliary map, as held by the plugin's `Base` class. -/
structure EntityState where
  worlds : List (Nat × WorldInfo)
  models : List (Nat × ModelInfo)
  links : List (Nat × LinkInfo)
  collisions : List (Nat × CollisionInfo)
  joints : List (Nat × JointInfo)
  childIdToParentId : List (Nat × Nat)
deriving DecidableEq, Repr

/-- `map.find(j)` on an association list: the first entry with key `j`. -/
def mfind {α : Type} : List (Nat × α) → Nat → Option α
  | [], _ => none
  | (k, v) :: rest, j => if k = j then some v else mfind rest j

/-- `map.erase(j)`: drop the entry with key `j` (no-op when absent). -/
def merase {α : Type} (m : List (Nat × α)) (j : Nat) : List (Nat × α) :=
  m.filter (fun p => p.1 != j)

/-- Replace the value stored at key `j` (models the in-place mutation of the
shared native-world object reachable from `worlds.at(j)`). -/
def mupdate {α : Type} (m : List (Nat × α)) (j : Nat) (v : α) : List (Nat × α) :=
  m.map (fun p => if p.1 = j then (j, v) else p)

/-- `btDiscreteDynamicsWorld::removeRigidBody`: detach the link's native body;
no-op when it was never attached. -/
def removeRigidBody (w : WorldInfo) (linkId : Nat) : WorldInfo :=
  { w with bodies := w.bodies.filter (fun b => b != linkId) }

/-- `btDiscreteDynamicsWorld::removeConstraint`: detach the joint's native
constraint; no-op when it was never attached. -/
def removeConstraint (w : WorldInfo) (jointId : Nat) : WorldInfo :=
  { w with constraints := w.constraints.filter (fun c => c != jointId) }

/-- Modelled from the spec: the Identity/Index Registry of the design
(`idToIndexInContainer` in the plugin's `Base.hh`, which is not part of the
repository snapshot; only its callers are).  Scan of the auxiliary
child-to-parent map: the position of identity `j` among the entries that share
the parent `parent`, in store iteration order. -/
def idToIndexScan : List (Nat × Nat) → Nat → Nat → Option Nat
  | [], _, _ => none
  | (c, p) :: rest, parent, j =>
    if p = parent then
      if c = j then some 0
      else (idToIndexScan rest parent j).map (fun n => n + 1)
    else idToIndexScan rest parent j

/-- Modelled from the spec: `indexOf(identity) -> index` of the Registry —
the position of the identity within its owning container's enumeration order,
with the sentinel (`none`) when the identity has no live auxiliary entry. -/
def idToIndexInContainer (st : EntityState) (j : Nat) : Option Nat :=
  match mfind st.childIdToParentId j with
  | none => none
  | some parent => idToIndexScan st.childIdToParentId parent j

/-- Modelled from the spec: scan for `identityAt(owner, index)` — the
`idx`-th auxiliary entry whose parent is `parent`, in store iteration order. -/
def indexToIdScan : List (Nat × Nat) → Nat → Nat → Option Nat
  | [], _, _ => none
  | (c, p) :: rest, parent, idx =>
    if p = parent then
      match idx with
      | 0 => some c
      | k + 1 => indexToIdScan rest parent k
    else indexToIdScan rest parent idx

/-- Modelled from the spec: `identityAt(owner, index) -> identity` of the
Registry (`indexInContainerToId` in the missing `Base.hh`); the sentinel
(`none`) when the index does not correspond to a live entry. -/
def indexInContainerToId (st : EntityState) (containerId idx : Nat) : Option Nat :=
  indexToIdScan st.childIdToParentId containerId idx

/-- One observable step of the removal cascade, in the order the C++ performs
them: native detaches and bookkeeping erases, tagged with the entity id. -/
inductive CascadeEvent where
  | detachConstraint : Nat → CascadeEvent
  | detachBody : Nat → CascadeEvent
  | eraseAux : Nat → CascadeEvent
  | eraseJoint : Nat → CascadeEvent
  | eraseCollision : Nat → CascadeEvent
  | eraseLink : Nat → CascadeEvent
  | eraseModel : Nat → CascadeEvent
deriving DecidableEq, Repr

/-- The joint loop of `RemoveModelByIndex` (lines 92-105): for every joint
record, read its child link via `links[childLinkId]` (crash — `none` — when
the link record is absent, since the C++ dereferences a null pointer), and
when the child link's `model.id` equals `_modelIndex`, detach the native
constraint, erase the auxiliary entry and erase the joint record. -/
def jointPhase (idx : Nat) (lks : List (Nat × LinkInfo)) :
    List (Nat × JointInfo) → WorldInfo → List (Nat × Nat) →
      Option (List (Nat × JointInfo) × WorldInfo × List (Nat × Nat) × List CascadeEvent)
  | [], w, aux => some ([], w, aux, [])
  | (jid, ji) :: rest, w, aux =>
    match mfind lks ji.childLinkId with
    | none => none
    | some childLinkInfo =>
      if childLinkInfo.model = idx then
        (jointPhase idx lks rest (removeConstraint w jid) (merase aux jid)).map
          (fun r => (r.1, r.2.1, r.2.2.1,
            CascadeEvent.detachConstraint jid :: CascadeEvent.eraseAux jid ::
              CascadeEvent.eraseJoint jid :: r.2.2.2))
      else
        (jointPhase idx lks rest w aux).map
          (fun r => ((jid, ji) :: r.1, r.2))

/-- The collision loop of `RemoveModelByIndex` (lines 107-119): erase the
auxiliary entry and the collision record of every collision whose `model.id`
equals `_modelIndex` (no native detach — geometry lifetime is managed
elsewhere). -/
def collisionPhase (idx : Nat) :
    List (Nat × CollisionInfo) → List (Nat × Nat) →
      List (Nat × CollisionInfo) × List (Nat × Nat) × List CascadeEvent
  | [], aux => ([], aux, [])
  | (cid, ci) :: rest, aux =>
    if ci.model = idx then
      let r := collisionPhase idx rest (merase aux cid)
      (r.1, r.2.1,
        CascadeEvent.eraseAux cid :: CascadeEvent.eraseCollision cid :: r.2.2)
    else
      let r := collisionPhase idx rest aux
      ((cid, ci) :: r.1, r.2)

/-- The link loop of `RemoveModelByIndex` (lines 121-135): for every link
whose `model.id` equals `_modelIndex`, detach its native rigid body, erase
the auxiliary entry and erase the link record. -/
def linkPhase (idx : Nat) :
    List (Nat × LinkInfo) → WorldInfo → List (Nat × Nat) →
      List (Nat × LinkInfo) × WorldInfo × List (Nat × Nat) × List CascadeEvent
  | [], w, aux => ([], w, aux, [])
  | (lid, li) :: rest, w, aux =>
    if li.model = idx then
      let r := linkPhase idx rest (removeRigidBody w lid) (merase aux lid)
      (r.1, r.2.1, r.2.2.1,
        CascadeEvent.detachBody lid :: CascadeEvent.eraseAux lid ::
          CascadeEvent.eraseLink lid :: r.2.2.2)
    else
      let r := linkPhase idx rest w aux
      ((lid, li) :: r.1, r.2)

/-- The cascade body of `RemoveModelByIndex` after its precondition checks
(lines 90-141): joint phase, collision phase, link phase, then
`models.erase(_modelEntity)` and `childIdToParentId.erase(_modelIndex)` —
note the last erase is keyed by the positional index, exactly as in the
source.  `e` is `_modelEntity`, `mw` the model's owning world id, `wi` that
world's record, `i` is `_modelIndex`. -/
def removeCascade (st : EntityState) (e mw : Nat) (wi : WorldInfo) (i : Nat) :
    Option (EntityState × List CascadeEvent) :=
  (jointPhase i st.links st.joints wi st.childIdToParentId).map (fun rj =>
    let rc := collisionPhase i st.collisions rj.2.2.1
    let rl := linkPhase i st.links rj.2.1 rc.2.1
    ({ worlds := mupdate st.worlds mw rl.2.1,
       models := merase st.models e,
       links := rl.1,
       collisions := rc.1,
       joints := rj.1,
       childIdToParentId := merase rl.2.2.1 i },
     rj.2.2.2 ++ rc.2.2 ++ (rl.2.2.2 ++
       [CascadeEvent.eraseModel e, CascadeEvent.eraseAux i])))

/-- `EntityManagementFeatures::RemoveModelByIndex` (lines 77-142): resolve
the index to an entity id, fail fast (no mutation) when no model record
exists for it, look up the model's world (`worlds.at` — crash when absent),
then run the cascade. -/
def RemoveModelByIndex (st : EntityState) (worldID i : Nat) :
    Option (Bool × EntityState × List CascadeEvent) :=
  match indexInContainerToId st worldID i with
  | none => some (false, st, [])
  | some e =>
    match mfind st.models e with
    | none => some (false, st, [])
    | some model =>
      match mfind st.worlds model.world with
      | none => none
      | some wi =>
        match removeCascade st e model.world wi i with
        | none => none
        | some (st2, ev) => some (true, st2, ev)

/-- `EntityManagementFeatures::RemoveModel` (lines 57-69): fail fast when the
id has no model record, otherwise delegate to `RemoveModelByIndex` with the
model's owning world and the model's index in its container. -/
def RemoveModel (st : EntityState) (modelID : Nat) :
    Option (Bool × EntityState × List CascadeEvent) :=
  match mfind st.models modelID with
  | none => some (false, st, [])
  | some mi =>
    match idToIndexInContainer st modelID with
    | none => some (false, st, [])
    | some idx => RemoveModelByIndex st mi.world idx

/-- `EntityManagementFeatures::ModelRemoved` (lines 71-75): pure query, true
iff the id is absent from the model map. -/
def ModelRemoved (st : EntityState) (modelID : Nat) : Bool :=
  (mfind st.models modelID).isNone

/-- The name scan of `RemoveModelByName` (lines 148-160): first model record
whose name matches, in store iteration order. -/
def findFirstByName : List (Nat × ModelInfo) → String → Option Nat
  | [], _ => none
  | (k, mi) :: rest, s => if mi.name = s then some k else findFirstByName rest s

/-- `EntityManagementFeatures::RemoveModelByName` (lines 144-169): linear
scan over the model map for the first name match, failure when none matches,
otherwise delegate to `RemoveModelByIndex` with the caller's `_worldID` and
the found model's index. -/
def RemoveModelByName (st : EntityState) (worldID : Nat) (s : String) :
    Option (Bool × EntityState × List CascadeEvent) :=
  match findFirstByName st.models s with
  | none => some (false, st, [])
  | some entity =>
    match idToIndexInContainer st entity with
    | none => some (false, st, [])
    | some idx => RemoveModelByIndex st worldID idx



/-! ## Map and registry lemmas -/

theorem mfind_merase_self {α : Type} (l : List (Nat × α)) (k : Nat) :
    mfind (merase l k) k = none := by
  induction l with
  | nil => rfl
  | cons p rest ih =>
    obtain ⟨k1, v⟩ := p
    by_cases h : k1 = k
    · simpa [merase, List.filter_cons, h] using ih
    · have hb : ((k1, v).1 != k) = true := by simp [h]
      simp only [merase, List.filter_cons, hb, if_true] at ih ⊢
      simpa [mfind, h] using ih

theorem scan_roundtrip (aux : List (Nat × Nat)) (m parent : Nat)
    (h : mfind aux m = some parent) :
    ∃ k, idToIndexScan aux parent m = some k ∧
      indexToIdScan aux parent k = some m := by
  induction aux with
  | nil => simp [mfind] at h
  | cons p rest ih =>
    obtain ⟨c, q⟩ := p
    by_cases hc : c = m
    · have hq : q = parent := by
        have : some q = some parent := by simpa [mfind, hc] using h
        exact Option.some.inj this
      exact ⟨0, by simp [idToIndexScan, hq, hc], by simp [indexToIdScan, hq, hc]⟩
    · have h2 : mfind rest m = some parent := by simpa [mfind, hc] using h
      obtain ⟨k, hk1, hk2⟩ := ih h2
      by_cases hq : q = parent
      · exact ⟨k + 1, by simp [idToIndexScan, hq, hc, hk1],
          by simp [indexToIdScan, hq, hk2]⟩
      · exact ⟨k, by simp [idToIndexScan, hq, hk1],
          by simp [indexToIdScan, hq, hk2]⟩

theorem jointPhase_isSome (idx : Nat) (lks : List (Nat × LinkInfo))
    (js : List (Nat × JointInfo)) (w : WorldInfo) (aux : List (Nat × Nat)) :
    (jointPhase idx lks js w aux).isSome = true ↔
      ∀ p ∈ js, (mfind lks p.2.childLinkId).isSome = true := by
  induction js generalizing w aux with
  | nil => simp [jointPhase]
  | cons p rest ih =>
    obtain ⟨jid, ji⟩ := p
    cases hfind : mfind lks ji.childLinkId with
    | none =>
      constructor
      · intro h
        exfalso
        simp [jointPhase, hfind] at h
      · intro h
        exfalso
        have := h (jid, ji) (List.mem_cons_self _ _)
        rw [hfind] at this
        exact Bool.noConfusion this
    | some cli =>
      have hforall : (∀ p ∈ (jid, ji) :: rest, (mfind lks p.2.childLinkId).isSome = true) ↔
          ∀ p ∈ rest, (mfind lks p.2.childLinkId).isSome = true := by
        constructor
        · intro h p hp
          exact h p (List.mem_cons_of_mem _ hp)
        · intro h p hp
          rcases List.mem_cons.mp hp with he | hp2
          · rw [he, hfind]
            rfl
          · exact h p hp2
      rw [hforall]
      by_cases hm : cli.model = idx
      · rw [← ih (removeConstraint w jid) (merase aux jid)]
        simp only [jointPhase, hfind, hm, if_true]
        cases jointPhase idx lks rest (removeConstraint w jid) (merase aux jid) <;> simp
      · rw [← ih w aux]
        simp only [jointPhase, hfind, hm, if_false]
        cases jointPhase idx lks rest w aux <;> simp

theorem removeCascade_isSome (st : EntityState) (e mw : Nat) (wi : WorldInfo) (i : Nat) :
    (removeCascade st e mw wi i).isSome =
      (jointPhase i st.links st.joints wi st.childIdToParentId).isSome := by
  unfold removeCascade
  cases jointPhase i st.links st.joints wi st.childIdToParentId <;> rfl

theorem removeCascade_shape (st : EntityState) (e mw : Nat) (wi : WorldInfo) (i : Nat)
    (st2 : EntityState) (ev : List CascadeEvent)
    (h : removeCascade st e mw wi i = some (st2, ev)) :
    st2.models = merase st.models e := by
  unfold removeCascade at h
  rw [Option.map_eq_some'] at h
  obtain ⟨rj, -, hf⟩ := h
  simp only [Prod.mk.injEq] at hf
  rw [← hf.1]

theorem removeByIndex_false (st : EntityState) (w i : Nat)
    (r : Bool × EntityState × List CascadeEvent)
    (h : RemoveModelByIndex st w i = some r) (hr : r.1 = false) : r.2.1 = st := by
  unfold RemoveModelByIndex at h
  split at h
  · rw [← Option.some.inj h]
  · split at h
    · rw [← Option.some.inj h]
    · split at h
      · exact Option.noConfusion h
      · split at h
        · exact Option.noConfusion h
        · rw [← Option.some.inj h] at hr
          simp at hr

theorem removeModel_false (st : EntityState) (m : Nat)
    (r : Bool × EntityState × List CascadeEvent)
    (h : RemoveModel st m = some r) (hr : r.1 = false) : r.2.1 = st := by
  unfold RemoveModel at h
  split at h
  · rw [← Option.some.inj h]
  · split at h
    · rw [← Option.some.inj h]
    · exact removeByIndex_false _ _ _ _ h hr

theorem removeByName_false (st : EntityState) (w : Nat) (s : String)
    (r : Bool × EntityState × List CascadeEvent)
    (h : RemoveModelByName st w s = some r) (hr : r.1 = false) : r.2.1 = st := by
  unfold RemoveModelByName at h
  split at h
  · rw [← Option.some.inj h]
  · split at h
    · rw [← Option.some.inj h]
    · exact removeByIndex_false _ _ _ _ h hr

/-! ## Concrete states used to settle the claims -/

/-- World 0 with model 1 (index 0 in its world) owning link 2, whose native
body is attached. -/
def c1st : EntityState :=
  { worlds := [(0, ⟨"", [2], []⟩)], models := [(1, ⟨"", 0⟩)],
    links := [(2, ⟨1⟩)], collisions := [], joints := [],
    childIdToParentId := [(1, 0), (2, 1)] }

/-- The state `RemoveModel c1st 1` actually produces. -/
def c1After : EntityState :=
  { worlds := [(0, ⟨"", [2], []⟩)], models := [],
    links := [(2, ⟨1⟩)], collisions := [], joints := [],
    childIdToParentId := [(1, 0), (2, 1)] }

/-- World 0 with models 1 (index 0) and 3 (index 1); link 4 is owned by
model 1 and its native body is attached. -/
def c2st : EntityState :=
  { worlds := [(0, ⟨"", [4], []⟩)],
    models := [(1, ⟨"", 0⟩), (3, ⟨"", 0⟩)],
    links := [(4, ⟨1⟩)], collisions := [], joints := [],
    childIdToParentId := [(1, 0), (3, 0), (4, 1)] }

/-- The state `RemoveModel c2st 3` actually produces. -/
def c2After : EntityState :=
  { worlds := [(0, ⟨"", [], []⟩)], models := [(1, ⟨"", 0⟩)],
    links := [], collisions := [], joints := [],
    childIdToParentId := [(3, 0)] }

/-- World 0, model 1 (index 0) owning link 2; joint 3 has child link 2 and
its native constraint is attached. -/
def c6st : EntityState :=
  { worlds := [(0, ⟨"", [2], [3]⟩)], models := [(1, ⟨"", 0⟩)],
    links := [(2, ⟨1⟩)], collisions := [], joints := [(3, ⟨2⟩)],
    childIdToParentId := [(1, 0), (2, 1), (3, 2)] }

/-- The state `RemoveModel c6st 1` actually produces. -/
def c6After : EntityState :=
  { worlds := [(0, ⟨"", [2], [3]⟩)], models := [],
    links := [(2, ⟨1⟩)], collisions := [], joints := [(3, ⟨2⟩)],
    childIdToParentId := [(1, 0), (2, 1), (3, 2)] }

/-- World 0 with a single childless model 1 (index 0). -/
def c8st : EntityState :=
  { worlds := [(0, ⟨"", [], []⟩)], models := [(1, ⟨"", 0⟩)],
    links := [], collisions := [], joints := [],
    childIdToParentId := [(1, 0)] }

/-- The state `RemoveModel c8st 1` actually produces. -/
def c8After : EntityState :=
  { worlds := [(0, ⟨"", [], []⟩)], models := [],
    links := [], collisions := [], joints := [],
    childIdToParentId := [(1, 0)] }

/-! ## Claim theorems -/

/-- C1 (cascade completeness, refuted on the code): in `c1st`, link 2 is
owned by model 1, yet `RemoveModel c1st 1` returns success while the link
record is still in the Entity Store and its native rigid body is still
attached to world 0.  The cascade loops compare each record's owning model
identity against the positional `_modelIndex` (here 0) instead of the model
identity `_modelEntity` (here 1), so no owned record matches. -/
theorem c1_cascade_completeness_fails :
    mfind c1st.links 2 = some ⟨1⟩ ∧
    mfind c1st.models 1 = some ⟨"", 0⟩ ∧
    RemoveModel c1st 1 =
      some (true, c1After, [CascadeEvent.eraseModel 1, CascadeEvent.eraseAux 0]) ∧
    mfind c1After.links 2 = some ⟨1⟩ ∧
    mfind c1After.worlds 0 = some ⟨"", [2], []⟩ := by
  decide

/-- C2 (no collateral damage, refuted on the code): in `c2st`, link 4 is
owned by model 1, distinct from the removed model 3; `RemoveModel c2st 3`
succeeds but erases model 1's link record, detaches its native body, and
erases model 1's auxiliary child-to-parent entry, because model 3's
positional index (1) collides with model 1's identity. -/
theorem c2_collateral_damage_occurs :
    mfind c2st.links 4 = some ⟨1⟩ ∧
    (1 : Nat) ≠ 3 ∧
    mfind c2st.models 1 = some ⟨"", 0⟩ ∧
    RemoveModel c2st 3 =
      some (true, c2After,
        [CascadeEvent.detachBody 4, CascadeEvent.eraseAux 4, CascadeEvent.eraseLink 4,
          CascadeEvent.eraseModel 3, CascadeEvent.eraseAux 1]) ∧
    mfind c2After.links 4 = none ∧
    mfind c2After.childIdToParentId 1 = none ∧
    mfind c2After.worlds 0 = some ⟨"", [], []⟩ := by
  decide

/-- C6 (joint cascade asymmetry, refuted on the code): in `c6st`, joint 3's
child link is link 2, which is owned by the removed model 1, yet the joint
record survives `RemoveModel c6st 1` and its native constraint stays
attached: the joint loop compares the child link's owning model identity (1)
against the positional `_modelIndex` (0). -/
theorem c6_joint_child_membership_fails :
    mfind c6st.joints 3 = some ⟨2⟩ ∧
    mfind c6st.links 2 = some ⟨1⟩ ∧
    RemoveModel c6st 1 =
      some (true, c6After, [CascadeEvent.eraseModel 1, CascadeEvent.eraseAux 0]) ∧
    mfind c6After.joints 3 = some ⟨2⟩ ∧
    mfind c6After.worlds 0 = some ⟨"", [2], [3]⟩ := by
  decide

/-- C8 (auxiliary-map lockstep, refuted on the code): `RemoveModel c8st 1`
erases model 1's record but leaves the auxiliary entry keyed by identity 1
in place, because line 139 of the source erases the auxiliary map at the
positional `_modelIndex` (0) instead of the model identity. -/
theorem c8_aux_lockstep_fails :
    RemoveModel c8st 1 =
      some (true, c8After, [CascadeEvent.eraseModel 1, CascadeEvent.eraseAux 0]) ∧
    mfind c8After.models 1 = none ∧
    mfind c8After.childIdToParentId 1 = some 0 := by
  decide

/-- C10 (joint cleanup presupposes live child links): the cascade of a
removal has a defined outcome exactly when every joint record's child-link id
resolves in the link map; under that precondition the joint loop's
failure branch (absent link record) is unreachable, and conversely the loop
reads the child link of every joint, member of the removed model or not. -/
theorem c10_joint_phase_reads_all_child_links (st : EntityState) (e mw : Nat)
    (wi : WorldInfo) (i : Nat) :
    (removeCascade st e mw wi i).isSome = true ↔
      ∀ p ∈ st.joints, (mfind st.links p.2.childLinkId).isSome = true := by
  rw [removeCascade_isSome]
  exact jointPhase_isSome i st.links st.joints wi st.childIdToParentId

/-- C3 (not-found is an atomic no-op): removal of an id with no model record
returns `false` and leaves the Entity Store (all five maps and the auxiliary
map) and the native worlds unchanged; and every defined removal call, by id,
by index or by name, that returns `false` leaves the state unchanged. -/
theorem c3_not_found_noop (st : EntityState) (m : Nat)
    (h : mfind st.models m = none) :
    RemoveModel st m = some (false, st, []) ∧
    (∀ st1 m1 r, RemoveModel st1 m1 = some r → r.1 = false → r.2.1 = st1) ∧
    (∀ st1 w i r, RemoveModelByIndex st1 w i = some r → r.1 = false → r.2.1 = st1) ∧
    (∀ st1 w s r, RemoveModelByName st1 w s = some r → r.1 = false → r.2.1 = st1) := by
  refine ⟨?_, fun st1 m1 r hr hf => removeModel_false st1 m1 r hr hf,
    fun st1 w i r hr hf => removeByIndex_false st1 w i r hr hf,
    fun st1 w s r hr hf => removeByName_false st1 w s r hr hf⟩
  unfold RemoveModel
  rw [h]

/-- State for the C3 witness: id 9 has no model record. -/
def c3wst : EntityState :=
  { worlds := [(0, ⟨"w", [], []⟩)], models := [(1, ⟨"m", 0⟩)],
    links := [], collisions := [], joints := [],
    childIdToParentId := [(1, 0)] }

/-- Witness for C3 at the concrete state `c3wst` and the absent id 9. -/
theorem c3_not_found_noop_witness :
    RemoveModel c3wst 9 = some (false, c3wst, []) ∧
    (∀ st1 m1 r, RemoveModel st1 m1 = some r → r.1 = false → r.2.1 = st1) ∧
    (∀ st1 w i r, RemoveModelByIndex st1 w i = some r → r.1 = false → r.2.1 = st1) ∧
    (∀ st1 w s r, RemoveModelByName st1 w s = some r → r.1 = false → r.2.1 = st1) :=
  c3_not_found_noop c3wst 9 (by decide)

/-- C4 (idempotence of removal): for a model whose store entries are
well-formed — record present, auxiliary entry pointing at its owning world,
that world present, and every joint's child link resolvable — the first
`RemoveModel` returns `true`, `ModelRemoved` then reports `true`, and a
second `RemoveModel` on the same id returns `false` without further
mutation. -/
theorem c4_removal_idempotent (st : EntityState) (m : Nat) (mi : ModelInfo)
    (hm : mfind st.models m = some mi)
    (haux : mfind st.childIdToParentId m = some mi.world)
    (hw : (mfind st.worlds mi.world).isSome = true)
    (hj : ∀ p ∈ st.joints, (mfind st.links p.2.childLinkId).isSome = true) :
    ∃ st2 ev, RemoveModel st m = some (true, st2, ev) ∧
      ModelRemoved st2 m = true ∧
      RemoveModel st2 m = some (false, st2, []) := by
  obtain ⟨k, hscan, hresolve⟩ := scan_roundtrip st.childIdToParentId m mi.world haux
  obtain ⟨wi, hwi⟩ := Option.isSome_iff_exists.mp hw
  have hidx : idToIndexInContainer st m = some k := by
    unfold idToIndexInContainer
    rw [haux]
    exact hscan
  have hres : indexInContainerToId st mi.world k = some m := hresolve
  have hcs : (removeCascade st m mi.world wi k).isSome = true := by
    rw [removeCascade_isSome, jointPhase_isSome]
    exact hj
  obtain ⟨rr, hrr⟩ := Option.isSome_iff_exists.mp hcs
  obtain ⟨st2, ev⟩ := rr
  have hmain : RemoveModel st m = some (true, st2, ev) := by
    simp only [RemoveModel, hm, hidx, RemoveModelByIndex, hres, hwi, hrr]
  have hmodels : st2.models = merase st.models m :=
    removeCascade_shape st m mi.world wi k st2 ev hrr
  have hnone : mfind st2.models m = none := by
    rw [hmodels]
    exact mfind_merase_self _ _
  refine ⟨st2, ev, hmain, ?_, ?_⟩
  · unfold ModelRemoved
    rw [hnone]
    rfl
  · unfold RemoveModel
    rw [hnone]

/-- State for the C4 witness: model 1 in world 0 with link 2, and joint 3
whose child link 2 is live. -/
def c4wst : EntityState :=
  { worlds := [(0, ⟨"", [2], [3]⟩)], models := [(1, ⟨"", 0⟩)],
    links := [(2, ⟨1⟩)], collisions := [], joints := [(3, ⟨2⟩)],
    childIdToParentId := [(1, 0), (2, 1), (3, 2)] }

/-- Witness for C4 at the concrete well-formed state `c4wst`. -/
theorem c4_removal_idempotent_witness :
    ∃ st2 ev, RemoveModel c4wst 1 = some (true, st2, ev) ∧
      ModelRemoved st2 1 = true ∧
      RemoveModel st2 1 = some (false, st2, []) :=
  c4_removal_idempotent c4wst 1 ⟨"", 0⟩ (by decide) (by decide) (by decide)
    (by decide)

theorem findFirst_of_uniq (l : List (Nat × ModelInfo)) (s : String) (m : Nat)
    (mi : ModelInfo) (hmem : (m, mi) ∈ l) (hname : mi.name = s)
    (huniq : ∀ p ∈ l, p.2.name = s → p = (m, mi)) :
    findFirstByName l s = some m := by
  induction l with
  | nil => cases hmem
  | cons q rest ih =>
    obtain ⟨k, v⟩ := q
    by_cases hv : v.name = s
    · have heq := huniq (k, v) (List.mem_cons_self _ _) hv
      have hk : k = m := congrArg Prod.fst heq
      simp [findFirstByName, hv, hk]
    · have hmem2 : (m, mi) ∈ rest := by
        rcases List.mem_cons.mp hmem with he | h2
        · exfalso
          apply hv
          have hv2 : v = mi := congrArg Prod.snd he.symm
          rw [hv2]
          exact hname
        · exact h2
      have huniq2 : ∀ p ∈ rest, p.2.name = s → p = (m, mi) :=
        fun p hp hps => huniq p (List.mem_cons_of_mem _ hp) hps
      simpa [findFirstByName, hv] using ih hmem2 huniq2

theorem mfind_of_mem_nodup {α : Type} (l : List (Nat × α)) (k : Nat) (v : α)
    (hmem : (k, v) ∈ l) (hnod : (l.map Prod.fst).Nodup) : mfind l k = some v := by
  induction l with
  | nil => cases hmem
  | cons q rest ih =>
    obtain ⟨k1, v1⟩ := q
    rw [List.map_cons, List.nodup_cons] at hnod
    rcases List.mem_cons.mp hmem with he | h2
    · injection he with hk hv
      subst hk
      subst hv
      simp [mfind]
    · have hk1 : k1 ≠ k := by
        intro hh
        apply hnod.1
        rw [hh]
        exact List.mem_map.mpr ⟨(k, v), h2, rfl⟩
      simp only [mfind, hk1, if_false]
      exact ih h2 hnod.2

theorem findFirst_none (l : List (Nat × ModelInfo)) (s : String)
    (h : ∀ p ∈ l, p.2.name ≠ s) : findFirstByName l s = none := by
  induction l with
  | nil => rfl
  | cons q rest ih =>
    obtain ⟨k, v⟩ := q
    have hv : v.name ≠ s := h (k, v) (List.mem_cons_self _ _)
    simp only [findFirstByName, hv, if_false]
    exact ih fun p hp => h p (List.mem_cons_of_mem _ hp)

/-- C5 (name-lookup equivalence, amended): when exactly one model record has
name `s` — identity `m`, record `mi` — and that model's owning world is the
`w` passed to `RemoveModelByName`, the call is extensionally equal to
`RemoveModel` on `m`; and when no model has name `s`, it returns `false`
with the store unchanged.  (The claim without the owning-world condition is
refuted by `c5_name_lookup_counterexample`: `RemoveModelByIndex` is invoked
with the caller's world, while `RemoveModel` uses the model's own world.) -/
theorem c5_name_lookup_amended :
    (∀ st w s m mi, (m, mi) ∈ st.models → mi.name = s →
        (∀ p ∈ st.models, p.2.name = s → p = (m, mi)) →
        (st.models.map Prod.fst).Nodup → mi.world = w →
        RemoveModelByName st w s = RemoveModel st m) ∧
    (∀ st w s, (∀ p ∈ st.models, p.2.name ≠ s) →
        RemoveModelByName st w s = some (false, st, [])) := by
  constructor
  · intro st w s m mi hmem hname huniq hnod hw
    have h1 : findFirstByName st.models s = some m :=
      findFirst_of_uniq _ _ _ _ hmem hname huniq
    have h2 : mfind st.models m = some mi := mfind_of_mem_nodup _ _ _ hmem hnod
    unfold RemoveModelByName RemoveModel
    rw [h1, h2]
    simp only [hw]
  · intro st w s h
    unfold RemoveModelByName
    rw [findFirst_none st.models s h]

/-- Two worlds (0 and 5) and exactly one model named `"a"`: model 1, owned
by world 0. -/
def c5st : EntityState :=
  { worlds := [(0, ⟨"", [], []⟩), (5, ⟨"", [], []⟩)],
    models := [(1, ⟨"a", 0⟩)],
    links := [], collisions := [], joints := [],
    childIdToParentId := [(1, 0)] }

/-- C5 counterexample: in `c5st` exactly one model has name `"a"` (model 1),
yet `RemoveModelByName c5st 5 "a"` does not produce the same result as
`RemoveModel c5st 1` — the claim as stated fails when the caller's world is
not the model's owning world. -/
theorem c5_name_lookup_counterexample :
    (∀ p ∈ c5st.models, p.2.name = "a" → p = (1, ⟨"a", 0⟩)) ∧
    mfind c5st.models 1 = some ⟨"a", 0⟩ ∧
    RemoveModelByName c5st 5 "a" ≠ RemoveModel c5st 1 := by
  decide

/-- World 0 with models 1 (`"a"`) and 2 (`"b"`), both owned by world 0. -/
def cw5st : EntityState :=
  { worlds := [(0, ⟨"", [], []⟩)],
    models := [(1, ⟨"a", 0⟩), (2, ⟨"b", 0⟩)],
    links := [], collisions := [], joints := [],
    childIdToParentId := [(1, 0), (2, 0)] }

/-- Witness for the amended C5 at `cw5st`: lookup of the unique `"a"` in its
own world, and lookup of an absent name. -/
theorem c5_name_lookup_amended_witness :
    RemoveModelByName cw5st 0 "a" = RemoveModel cw5st 1 ∧
    RemoveModelByName cw5st 0 "zz" = some (false, cw5st, []) :=
  ⟨c5_name_lookup_amended.1 cw5st 0 "a" 1 ⟨"a", 0⟩ (by decide) rfl (by decide)
      (by decide) rfl,
    c5_name_lookup_amended.2 cw5st 0 "zz" (by decide)⟩

/-- Pointwise equality of ids and names between two model maps (their world
fields may differ arbitrarily). -/
def sameIdName : List (Nat × ModelInfo) → List (Nat × ModelInfo) → Bool
  | [], [] => true
  | (k1, m1) :: r1, (k2, m2) :: r2 =>
    k1 == k2 && m1.name == m2.name && sameIdName r1 r2
  | _, _ => false

/-- Two worlds 1 and 2; model 10 named `"a"` lives in world 2, model 20
named `"b"` lives in world 1. -/
def c9st : EntityState :=
  { worlds := [(1, ⟨"", [], []⟩), (2, ⟨"", [], []⟩)],
    models := [(10, ⟨"a", 2⟩), (20, ⟨"b", 1⟩)],
    links := [], collisions := [], joints := [],
    childIdToParentId := [(10, 2), (20, 1)] }

/-- The state `RemoveModelByName c9st 1 "a"` actually produces. -/
def c9After : EntityState :=
  { worlds := [(1, ⟨"", [], []⟩), (2, ⟨"", [], []⟩)],
    models := [(10, ⟨"a", 2⟩)],
    links := [], collisions := [], joints := [],
    childIdToParentId := [(10, 2), (20, 1)] }

/-- C9 (world argument ignored in the name scan): the scan's selection
depends only on the ids and names of the model map — changing every world
ownership changes nothing — and concretely, calling
`RemoveModelByName c9st 1 "a"` selects model 10 even though it is owned by
world 2, not the argument world 1; the call then even proceeds to a
successful removal (of model 20, whose index in world 1 collides with the
selected model's index). -/
theorem c9_world_ignored_in_name_scan (ms1 ms2 : List (Nat × ModelInfo))
    (s : String) (h : sameIdName ms1 ms2 = true) :
    findFirstByName ms1 s = findFirstByName ms2 s ∧
    findFirstByName c9st.models "a" = some 10 ∧
    mfind c9st.models 10 = some ⟨"a", 2⟩ ∧
    RemoveModelByName c9st 1 "a" =
      some (true, c9After, [CascadeEvent.eraseModel 20, CascadeEvent.eraseAux 0]) ∧
    mfind c9After.models 20 = none ∧
    mfind c9After.models 10 = some ⟨"a", 2⟩ := by
  refine ⟨?_, by decide, by decide, by decide, by decide, by decide⟩
  induction ms1 generalizing ms2 with
  | nil =>
    cases ms2 with
    | nil => rfl
    | cons q r2 => exact Bool.noConfusion h
  | cons q r1 ih =>
    obtain ⟨k1, m1⟩ := q
    cases ms2 with
    | nil => exact Bool.noConfusion h
    | cons q2 r2 =>
      obtain ⟨k2, m2⟩ := q2
      simp only [sameIdName, Bool.and_eq_true, beq_iff_eq] at h
      obtain ⟨⟨hk, hn⟩, hr⟩ := h
      by_cases hs : m1.name = s
      · have hs2 : m2.name = s := by
          rw [← hn]
          exact hs
        simp [findFirstByName, hs, hs2, hk]
      · have hs2 : ¬ m2.name = s := by
          rw [← hn]
          exact hs
        simp only [findFirstByName, if_neg hs, if_neg hs2]
        exact ih r2 hr

/-- Witness for C9: two singleton model maps sharing ids and names but
owned by different worlds (2 and 77). -/
theorem c9_world_ignored_witness :
    findFirstByName [(10, ⟨"a", 2⟩)] "a" = findFirstByName [(10, ⟨"a", 77⟩)] "a" ∧
    findFirstByName c9st.models "a" = some 10 ∧
    mfind c9st.models 10 = some ⟨"a", 2⟩ ∧
    RemoveModelByName c9st 1 "a" =
      some (true, c9After, [CascadeEvent.eraseModel 20, CascadeEvent.eraseAux 0]) ∧
    mfind c9After.models 20 = none ∧
    mfind c9After.models 10 = some ⟨"a", 2⟩ :=
  c9_world_ignored_in_name_scan [(10, ⟨"a", 2⟩)] [(10, ⟨"a", 77⟩)] "a" (by decide)

/-- Events that the joint phase may emit. -/
def jointKind : CascadeEvent → Bool
  | CascadeEvent.detachConstraint _ => true
  | CascadeEvent.eraseAux _ => true
  | CascadeEvent.eraseJoint _ => true
  | _ => false

/-- Events that the collision phase may emit. -/
def collisionKind : CascadeEvent → Bool
  | CascadeEvent.eraseAux _ => true
  | CascadeEvent.eraseCollision _ => true
  | _ => false

/-- Events that the link phase may emit. -/
def linkKind : CascadeEvent → Bool
  | CascadeEvent.detachBody _ => true
  | CascadeEvent.eraseAux _ => true
  | CascadeEvent.eraseLink _ => true
  | _ => false

/-- `a` occurs strictly before every occurrence of `b` in the trace `l`. -/
def precedes (a b : CascadeEvent) (l : List CascadeEvent) : Prop :=
  ∀ n, l.get? n = some b → ∃ k, k < n ∧ l.get? k = some a

theorem precedes_append_out (a b : CascadeEvent) (l1 l2 : List CascadeEvent)
    (h1 : precedes a b l1) (h2 : b ∉ l2) : precedes a b (l1 ++ l2) := by
  intro n hn
  by_cases hlt : n < l1.length
  · rw [List.get?_append hlt] at hn
    obtain ⟨k, hk, hg⟩ := h1 n hn
    refine ⟨k, hk, ?_⟩
    rw [List.get?_append (lt_trans hk hlt)]
    exact hg
  · exfalso
    apply h2
    rw [List.get?_append_right (le_of_not_lt hlt)] at hn
    exact List.get?_mem hn

theorem precedes_append_in (a b : CascadeEvent) (l1 l2 : List CascadeEvent)
    (h1 : b ∉ l1) (h2 : precedes a b l2) : precedes a b (l1 ++ l2) := by
  intro n hn
  by_cases hlt : n < l1.length
  · exfalso
    apply h1
    rw [List.get?_append hlt] at hn
    exact List.get?_mem hn
  · have hle := le_of_not_lt hlt
    rw [List.get?_append_right hle] at hn
    obtain ⟨k, hk, hg⟩ := h2 (n - l1.length) hn
    refine ⟨l1.length + k, by omega, ?_⟩
    rw [List.get?_append_right (by omega)]
    have hkk : l1.length + k - l1.length = k := by omega
    rw [hkk]
    exact hg

theorem not_mem_of_kind (f : CascadeEvent → Bool) (l : List CascadeEvent)
    (h : ∀ x ∈ l, f x = true) (e : CascadeEvent) (he : f e = false) : e ∉ l := by
  intro hm
  rw [h e hm] at he
  exact Bool.noConfusion he

theorem collisionPhase_events (idx : Nat) (cols : List (Nat × CollisionInfo)) :
    ∀ aux : List (Nat × Nat),
      ∀ x ∈ (collisionPhase idx cols aux).2.2, collisionKind x = true := by
  induction cols with
  | nil =>
    intro aux x hx
    simp [collisionPhase] at hx
  | cons q rest ih =>
    obtain ⟨cid, ci⟩ := q
    intro aux x hx
    by_cases hm : ci.model = idx
    · simp only [collisionPhase, hm, if_true] at hx
      rcases List.mem_cons.mp hx with rfl | hx2
      · rfl
      rcases List.mem_cons.mp hx2 with rfl | hx3
      · rfl
      · exact ih (merase aux cid) x hx3
    · simp only [collisionPhase, hm, if_false] at hx
      exact ih aux x hx

theorem jointPhase_events (idx : Nat) (lks : List (Nat × LinkInfo))
    (js : List (Nat × JointInfo)) :
    ∀ (w : WorldInfo) (aux : List (Nat × Nat))
      (r : List (Nat × JointInfo) × WorldInfo × List (Nat × Nat) × List CascadeEvent),
      jointPhase idx lks js w aux = some r →
      (∀ x ∈ r.2.2.2, jointKind x = true) ∧
      ∀ j, precedes (CascadeEvent.detachConstraint j) (CascadeEvent.eraseJoint j)
        r.2.2.2 := by
  induction js with
  | nil =>
    intro w aux r h
    simp only [jointPhase] at h
    rw [← Option.some.inj h]
    refine ⟨by simp, fun j n hn => ?_⟩
    simp [List.get?] at hn
  | cons q rest ih =>
    obtain ⟨jid, ji⟩ := q
    intro w aux r h
    simp only [jointPhase] at h
    cases hfind : mfind lks ji.childLinkId with
    | none =>
      rw [hfind] at h
      exact Option.noConfusion h
    | some cli =>
      simp only [hfind] at h
      by_cases hm : cli.model = idx
      · rw [if_pos hm, Option.map_eq_some'] at h
        obtain ⟨r2, hr2, hf⟩ := h
        obtain ⟨hmem, hprec⟩ := ih (removeConstraint w jid) (merase aux jid) r2 hr2
        have hev : r.2.2.2 =
            CascadeEvent.detachConstraint jid :: CascadeEvent.eraseAux jid ::
              CascadeEvent.eraseJoint jid :: r2.2.2.2 := by
          rw [← hf]
        rw [hev]
        constructor
        · intro x hx
          rcases List.mem_cons.mp hx with rfl | hx2
          · rfl
          rcases List.mem_cons.mp hx2 with rfl | hx3
          · rfl
          rcases List.mem_cons.mp hx3 with rfl | hx4
          · rfl
          · exact hmem x hx4
        · intro j n hn
          match n, hn with
          | 0, hn => simp [List.get?] at hn
          | 1, hn => simp [List.get?] at hn
          | 2, hn =>
            have hj : jid = j := by simpa [List.get?] using hn
            refine ⟨0, by omega, ?_⟩
            simp [List.get?, hj]
          | (m + 3), hn =>
            obtain ⟨k, hk, hg⟩ := hprec j m hn
            exact ⟨k + 3, by omega, hg⟩
      · rw [if_neg hm, Option.map_eq_some'] at h
        obtain ⟨r2, hr2, hf⟩ := h
        obtain ⟨hmem, hprec⟩ := ih w aux r2 hr2
        have hev : r.2.2.2 = r2.2.2.2 := by
          rw [← hf]
        rw [hev]
        exact ⟨hmem, hprec⟩

theorem linkPhase_events (idx : Nat) (lks : List (Nat × LinkInfo)) :
    ∀ (w : WorldInfo) (aux : List (Nat × Nat)),
      (∀ x ∈ (linkPhase idx lks w aux).2.2.2, linkKind x = true) ∧
      ∀ j, precedes (CascadeEvent.detachBody j) (CascadeEvent.eraseLink j)
        (linkPhase idx lks w aux).2.2.2 := by
  induction lks with
  | nil =>
    intro w aux
    refine ⟨by simp [linkPhase], fun j n hn => ?_⟩
    simp [linkPhase, List.get?] at hn
  | cons q rest ih =>
    obtain ⟨lid, li⟩ := q
    intro w aux
    by_cases hm : li.model = idx
    · obtain ⟨hmem, hprec⟩ := ih (removeRigidBody w lid) (merase aux lid)
      have hev : (linkPhase idx ((lid, li) :: rest) w aux).2.2.2 =
          CascadeEvent.detachBody lid :: CascadeEvent.eraseAux lid ::
            CascadeEvent.eraseLink lid ::
              (linkPhase idx rest (removeRigidBody w lid) (merase aux lid)).2.2.2 := by
        simp [linkPhase, hm]
      rw [hev]
      constructor
      · intro x hx
        rcases List.mem_cons.mp hx with rfl | hx2
        · rfl
        rcases List.mem_cons.mp hx2 with rfl | hx3
        · rfl
        rcases List.mem_cons.mp hx3 with rfl | hx4
        · rfl
        · exact hmem x hx4
      · intro j n hn
        match n, hn with
        | 0, hn => simp [List.get?] at hn
        | 1, hn => simp [List.get?] at hn
        | 2, hn =>
          have hj : lid = j := by simpa [List.get?] using hn
          refine ⟨0, by omega, ?_⟩
          simp [List.get?, hj]
        | (m + 3), hn =>
          obtain ⟨k, hk, hg⟩ := hprec j m hn
          exact ⟨k + 3, by omega, hg⟩
    · obtain ⟨hmem, hprec⟩ := ih w aux
      have hev : (linkPhase idx ((lid, li) :: rest) w aux).2.2.2 =
          (linkPhase idx rest w aux).2.2.2 := by
        simp [linkPhase, hm]
      rw [hev]
      exact ⟨hmem, hprec⟩

/-- C7 (cascade phase order): every successful `RemoveModelByIndex` emits its
trace as joint-phase events, then collision-phase events, then link-phase
events, then the model-record erase and the final auxiliary erase; and within
the trace every joint-record erase is strictly preceded by the detach of that
joint's native constraint, and every link-record erase by the detach of that
link's native rigid body. -/
theorem c7_cascade_phase_order (st : EntityState) (w i : Nat)
    (st2 : EntityState) (tr : List CascadeEvent)
    (h : RemoveModelByIndex st w i = some (true, st2, tr)) :
    (∃ e ev1 ev2 ev3,
        tr = ev1 ++ ev2 ++ (ev3 ++
          [CascadeEvent.eraseModel e, CascadeEvent.eraseAux i]) ∧
        (∀ x ∈ ev1, jointKind x = true) ∧
        (∀ x ∈ ev2, collisionKind x = true) ∧
        (∀ x ∈ ev3, linkKind x = true)) ∧
    (∀ j, precedes (CascadeEvent.detachConstraint j) (CascadeEvent.eraseJoint j) tr) ∧
    (∀ j, precedes (CascadeEvent.detachBody j) (CascadeEvent.eraseLink j) tr) := by
  unfold RemoveModelByIndex at h
  cases hid : indexInContainerToId st w i with
  | none => simp [hid] at h
  | some e =>
    simp only [hid] at h
    cases hfm : mfind st.models e with
    | none => simp [hfm] at h
    | some model =>
      simp only [hfm] at h
      cases hfw : mfind st.worlds model.world with
      | none => simp [hfw] at h
      | some wi =>
        simp only [hfw] at h
        cases hcas : removeCascade st e model.world wi i with
        | none => simp [hcas] at h
        | some p =>
          obtain ⟨st3, ev3⟩ := p
          simp only [hcas, Option.some.injEq, Prod.mk.injEq, true_and] at h
          obtain ⟨h3, h4⟩ := h
          subst h4
          unfold removeCascade at hcas
          rw [Option.map_eq_some'] at hcas
          obtain ⟨rj, hrj, hf⟩ := hcas
          simp only [Prod.mk.injEq] at hf
          rw [← hf.2]
          obtain ⟨hjm, hjp⟩ :=
            jointPhase_events i st.links st.joints wi st.childIdToParentId rj hrj
          have hcm := collisionPhase_events i st.collisions rj.2.2.1
          obtain ⟨hlm, hlp⟩ :=
            linkPhase_events i st.links rj.2.1
              (collisionPhase i st.collisions rj.2.2.1).2.1
          refine ⟨⟨e, rj.2.2.2, (collisionPhase i st.collisions rj.2.2.1).2.2,
            (linkPhase i st.links rj.2.1
              (collisionPhase i st.collisions rj.2.2.1).2.1).2.2.2,
            rfl, hjm, hcm, hlm⟩, ?_, ?_⟩
          · intro j
            refine precedes_append_out _ _ _ _
              (precedes_append_out _ _ _ _ (hjp j)
                (not_mem_of_kind _ _ hcm (CascadeEvent.eraseJoint j) rfl)) ?_
            intro hmem
            rcases List.mem_append.mp hmem with h6 | h7
            · exact not_mem_of_kind _ _ hlm (CascadeEvent.eraseJoint j) rfl h6
            · simp at h7
          · intro j
            refine precedes_append_in _ _ _ _ ?_
              (precedes_append_out _ _ _ _ (hlp j) (by simp))
            intro hmem
            rcases List.mem_append.mp hmem with h5 | h6
            · exact not_mem_of_kind _ _ hjm (CascadeEvent.eraseLink j) rfl h5
            · exact not_mem_of_kind _ _ hcm (CascadeEvent.eraseLink j) rfl h6

/-- World 5 containing model 0 (identity 0, index 0) with link 2, collision
4 and joint 3 (child link 2); body 2 and constraint 3 are attached. -/
def c7st : EntityState :=
  { worlds := [(5, ⟨"", [2], [3]⟩)], models := [(0, ⟨"", 5⟩)],
    links := [(2, ⟨0⟩)], collisions := [(4, ⟨0⟩)], joints := [(3, ⟨2⟩)],
    childIdToParentId := [(0, 5), (2, 0), (3, 2), (4, 0)] }

/-- The state `RemoveModelByIndex c7st 5 0` actually produces. -/
def c7After : EntityState :=
  { worlds := [(5, ⟨"", [], []⟩)], models := [],
    links := [], collisions := [], joints := [],
    childIdToParentId := [] }

/-- The trace `RemoveModelByIndex c7st 5 0` actually emits. -/
def c7Tr : List CascadeEvent :=
  [CascadeEvent.detachConstraint 3, CascadeEvent.eraseAux 3,
    CascadeEvent.eraseJoint 3, CascadeEvent.eraseAux 4,
    CascadeEvent.eraseCollision 4, CascadeEvent.detachBody 2,
    CascadeEvent.eraseAux 2, CascadeEvent.eraseLink 2,
    CascadeEvent.eraseModel 0, CascadeEvent.eraseAux 0]

/-- Witness for C7 on the concrete removal `RemoveModelByIndex c7st 5 0`,
whose cascade removes one joint, one collision and one link. -/
theorem c7_cascade_phase_order_witness :
    (∃ e ev1 ev2 ev3,
        c7Tr = ev1 ++ ev2 ++ (ev3 ++
          [CascadeEvent.eraseModel e, CascadeEvent.eraseAux 0]) ∧
        (∀ x ∈ ev1, jointKind x = true) ∧
        (∀ x ∈ ev2, collisionKind x = true) ∧
        (∀ x ∈ ev3, linkKind x = true)) ∧
    (∀ j, precedes (CascadeEvent.detachConstraint j) (CascadeEvent.eraseJoint j)
      c7Tr) ∧
    (∀ j, precedes (CascadeEvent.detachBody j) (CascadeEvent.eraseLink j) c7Tr) :=
  c7_cascade_phase_order c7st 5 0 c7After c7Tr (by decide)
